import Mathlib

/-!
Verification of `braintree.py`: a shallow embedding of the batch feeder
(`TensorFlowData`), the soft-decision-tree graph construction (`BrainTree`),
and the scoring loop (`TensorFlowModel.score`), together with proofs of the
behavioural properties stated in the specification.

Conventions of the embedding:
* numpy arrays are modelled by `NpArray`: either one-dimensional (a list of
  entries) or two-dimensional (a list of rows); operations that raise numpy
  indexing/shape errors return `none`;
* real-valued tensor arithmetic is modelled over `ℝ`; a tensor is a function
  from its integer indices to `ℝ`;
* the numpy global random-number generator is modelled by an abstract state
  `Rng` with a deterministic `npSeed`/`npPermutation` interface: seeding fixes
  the state, and drawing a permutation of `range n` is a deterministic
  function of the state that also advances the state.  The concrete
  permutation chosen (a rotation of `range n`) stands in for the Mersenne
  Twister; all theorems below use only that it is a permutation determined by
  the state.
-/

namespace Braintree

/-- A numpy array of element type `γ`: either 1-dimensional or 2-dimensional
(a list of rows).  `braintree.py` only ever uses these two ranks. -/
inductive NpArray (γ : Type) where
  | d1 (data : List γ)
  | d2 (rows : List (List γ))
deriving DecidableEq

/-- Model of `a.shape[0]`: the leading dimension, defined for both ranks. -/
def npShape0 {γ : Type} : NpArray γ → Nat
  | .d1 l => l.length
  | .d2 r => r.length

/-- Model of `a.shape[1]`: the second dimension; raises `IndexError` (`none`) on a
1-dimensional array.  For a (rectangular) 2-D array it is the row width. -/
def npShape1 {γ : Type} : NpArray γ → Option Nat
  | .d1 _ => none
  | .d2 r => r.head?.map List.length

/-- Model of `a[lo:hi, :]`: row-slicing with a full second index.  On a 1-D array this
raises `IndexError: too many indices` (`none`); on a 2-D array a Python slice
clamps silently and never errors. -/
def npSliceRows {γ : Type} : NpArray γ → Nat → Nat → Option (List (List γ))
  | .d1 _, _, _ => none
  | .d2 rows, lo, hi => some ((rows.drop lo).take (hi - lo))

/-- Split a flat list into `b` consecutive chunks of `f` elements each
(the row structure of a reshape to `(..., b, f)`). -/
def takeChunks {γ : Type} (f : Nat) : Nat → List γ → List (List γ)
  | 0, _ => []
  | b + 1, l => l.take f :: takeChunks f b (l.drop f)

/-- Model of `np.reshape(rows, (1, b, f))`, with the singleton leading axis dropped:
requires the total element count to be `b * f`, else numpy raises (`none`).
The result is the data re-chunked into `b` rows of `f`. -/
def npReshape3 {γ : Type} (rows : List (List γ)) (b f : Nat) : Option (List (List γ)) :=
  if (rows.flatten).length = b * f then some (takeChunks f b rows.flatten) else none

/-- Model of `np.reshape(rows, (b,))`: requires the total element count to be `b`,
else numpy raises (`none`). -/
def npReshape1 {γ : Type} (rows : List (List γ)) (b : Nat) : Option (List γ) :=
  if (rows.flatten).length = b then some rows.flatten else none

/-- Model of `a[order, :]` (fancy indexing by a list of row indices).  On a 1-D array
this raises `IndexError: too many indices` (`none`); on a 2-D array it picks
the rows in the order given, erroring if any index is out of bounds. -/
def npFancyRows {γ : Type} : NpArray γ → List Nat → Option (List (List γ))
  | .d1 _, _ => none
  | .d2 rows, order =>
      if order.all (fun i => i < rows.length) then
        some (order.map (fun i => rows.getD i []))
      else none

/-- Model of the numpy global random-number-generator state. -/
structure Rng where
  state : Nat
deriving DecidableEq

/-- Model of `np.random.seed(s)`: the generator state becomes a deterministic function
of the seed. -/
def npSeed (s : Nat) : Rng := ⟨s⟩

/-- Model of `np.random.permutation(n)`: a permutation of `range n` determined by the
generator state, which is advanced by the draw.  The concrete permutation (a
rotation of `range n` by the state) stands in for the Mersenne Twister; the
proofs use only that the output is a permutation of `range n` determined by
the state. -/
def npPermutation (g : Rng) (n : Nat) : List Nat × Rng :=
  ((List.range n).rotate g.state, ⟨g.state + 1⟩)

/-- Python truthiness of the `random_seed` argument: `if random_seed:` is
false for `None` and for `0`. -/
def seedTruthy : Option Nat → Bool
  | none => false
  | some s => decide (s ≠ 0)

/-- State of a `TensorFlowData` feeder (fields as set up by `__init__`). -/
structure TFData (γ : Type) where
  predictors : NpArray γ
  num_predictors : Nat
  response : NpArray γ
  batch_index : Nat
  reached_end : Bool
  num_observations : Nat
  shuffle_each_epoch : Bool
deriving DecidableEq

/-- Model of `TensorFlowData.__init__(predictors, response, shuffle_each_epoch)`:
reads `predictors.shape[1]` (an `IndexError`, hence `none`, when the
predictor array is 1-dimensional) and `predictors.shape[0]`, and initialises
the cursor and flag. -/
def TFData.init {γ : Type} (predictors response : NpArray γ)
    (shuffle_each_epoch : Bool) : Option (TFData γ) :=
  (npShape1 predictors).map (fun np =>
    { predictors := predictors
      num_predictors := np
      response := response
      batch_index := 0
      reached_end := false
      num_observations := npShape0 predictors
      shuffle_each_epoch := shuffle_each_epoch })

/-- Model of `TensorFlowData.shuffle(random_seed=None)`: optionally reseeds the global
generator (only when the seed is truthy, so `None` and `0` do not reseed),
draws one permutation of `range(num_observations)`, and applies it jointly to
the predictor rows and the response rows.  Fancy-indexing a 1-D response
raises (`none`). -/
def TFData.shuffle {γ : Type} (g : Rng) (d : TFData γ) (random_seed : Option Nat) :
    Option (TFData γ × Rng) :=
  let g1 := if seedTruthy random_seed then npSeed (random_seed.getD 0) else g
  let new_order := (npPermutation g1 d.num_observations).1
  let g2 := (npPermutation g1 d.num_observations).2
  (npFancyRows d.predictors new_order).bind (fun p =>
    (npFancyRows d.response new_order).map (fun r =>
      ({ d with predictors := .d2 p, response := .d2 r }, g2)))

/-- Model of `TensorFlowData._update_batch_index(batch_size)`: advance the cursor by
`batch_size`; if the advanced cursor plus one more `batch_size` overruns the
dataset, reset the cursor, set the reached-end flag, and (when enabled)
reshuffle. -/
def TFData.update_batch_index {γ : Type} (g : Rng) (d : TFData γ) (batch_size : Nat) :
    Option (TFData γ × Rng) :=
  let d1 := { d with batch_index := d.batch_index + batch_size }
  if d1.num_observations < d1.batch_index + batch_size then
    let d2 := { d1 with batch_index := 0, reached_end := true }
    if d2.shuffle_each_epoch then TFData.shuffle g d2 none else some (d2, g)
  else
    some (d1, g)

/-- A minibatch as built by `get_batch`: the predictor slice reshaped to
`(1, batch_size, num_predictors)` (singleton axis dropped) and the response
slice reshaped to `(batch_size,)`. -/
structure Batch (γ : Type) where
  predictors : List (List γ)
  response : List γ
deriving DecidableEq

/-- Model of `TensorFlowData.get_batch(batch_size)`: slice and reshape the predictor
rows, slice and reshape the response rows, then update the cursor (possibly
wrapping, flagging and reshuffling). -/
def TFData.get_batch {γ : Type} (g : Rng) (d : TFData γ) (batch_size : Nat) :
    Option (Batch γ × TFData γ × Rng) :=
  (npSliceRows d.predictors d.batch_index (d.batch_index + batch_size)).bind (fun ps =>
    (npReshape3 ps batch_size d.num_predictors).bind (fun pbatch =>
      (npSliceRows d.response d.batch_index (d.batch_index + batch_size)).bind (fun rs =>
        (npReshape1 rs batch_size).bind (fun rbatch =>
          (TFData.update_batch_index g d batch_size).map (fun dg =>
            ({ predictors := pbatch, response := rbatch }, dg.1, dg.2))))))

/-- Model of `TensorFlowData.has_reached_end()`: return the flag and clear it. -/
def TFData.has_reached_end {γ : Type} (d : TFData γ) : Bool × TFData γ :=
  (d.reached_end, { d with reached_end := false })

/-- Model of `TensorFlowData.reset_batch_index()`. -/
def TFData.reset_batch_index {γ : Type} (d : TFData γ) : TFData γ :=
  { d with reached_end := false, batch_index := 0 }

/-- The feeder state with 2-D data `P`/`R`, row width `F`, cursor `i` and
flag `flag`; `feederSt P R F se 0 false` is the state `__init__` produces on
a nonempty 2-D predictor matrix of width `F`. -/
def feederSt {γ : Type} (P R : List (List γ)) (F : Nat) (se : Bool)
    (i : Nat) (flag : Bool) : TFData γ :=
  { predictors := .d2 P
    num_predictors := F
    response := .d2 R
    batch_index := i
    reached_end := flag
    num_observations := P.length
    shuffle_each_epoch := se }

/-- The minibatch served from cursor position `i`: predictor rows
`i .. i+B-1` and the corresponding response entries (the `[N, 1]` response
rows flattened to shape `[B]`). -/
def batchAt {γ : Type} (P R : List (List γ)) (i B : Nat) : Batch γ :=
  { predictors := (P.drop i).take B
    response := ((R.drop i).take B).flatten }

/-- Run `get_batch` `k` times, collecting the served batches. -/
def runBatches {γ : Type} (g : Rng) (d : TFData γ) (B : Nat) :
    Nat → Option (List (Batch γ) × TFData γ × Rng)
  | 0 => some ([], d, g)
  | k + 1 =>
      (TFData.get_batch g d B).bind (fun r =>
        (runBatches r.2.2 r.2.1 B k).map (fun s => (r.1 :: s.1, s.2.1, s.2.2)))

/-- Well-formedness of a feeder over 2-D data: rectangular predictors of
width `F`, a response of shape `[N, 1]`, and consistent length bookkeeping. -/
def GoodData {γ : Type} (P R : List (List γ)) (F : Nat) : Prop :=
  (∀ r ∈ P, r.length = F) ∧ (∀ r ∈ R, r.length = 1) ∧ R.length = P.length

end Braintree

namespace Braintree

/-! ### The soft-tree computational graph (`BrainTree._build_graph`) -/

/-- Model of `tf.sigmoid`. -/
noncomputable def sigmoid (x : ℝ) : ℝ := 1 / (1 + Real.exp (-x))

/-- The routing probability of internal node `n` at level `d`, for batch item
`b` and tree `t` (`_build_split_prob` before the concat/gather):
`sigmoid((predictors · split_weight[d] + split_bias[d]) * exp(split_strength[d]))`.
`x b f` is entry `(b, f)` of the predictor batch, `sW d n f t` is the split
weight, `sB`/`sS` the bias and strength (their singleton batch axis dropped). -/
noncomputable def split_prob_node (F : Nat) (x : Nat → Nat → ℝ)
    (sW : Nat → Nat → Nat → Nat → ℝ) (sB sS : Nat → Nat → Nat → ℝ)
    (d n b t : Nat) : ℝ :=
  sigmoid (((∑ f ∈ Finset.range F, x b f * sW d n f t) + sB d n t) * Real.exp (sS d n t))

/-- Model of `tf.concat([prob, 1 - prob], axis=0)` evaluated at row `k`, for a level
with `m` internal nodes: row `k < m` is `prob[k]`, row `m ≤ k < 2*m` is
`1 - prob[k - m]`. -/
noncomputable def pwcF (p : Nat → ℝ) (m k : Nat) : ℝ :=
  if k < m then p k else 1 - p (k - m)

/-- Row `j` of the tensor returned by `_build_split_prob(depth)`: the
concat-with-complement tensor gathered with index list
`[0, …, 2^(d+1)-1] * 2^(max_depth-d-1)`, whose entry at position
`j < 2^max_depth` is `j % 2^(d+1)`. -/
noncomputable def build_split_prob (F : Nat) (x : Nat → Nat → ℝ)
    (sW : Nat → Nat → Nat → Nat → ℝ) (sB sS : Nat → Nat → Nat → ℝ)
    (d : Nat) (j b t : Nat) : ℝ :=
  pwcF (fun n => split_prob_node F x sW sB sS d n b t) (2 ^ d) (j % 2 ^ (d + 1))

/-- The list of per-level replicated probability tensors
`[self._build_split_prob(depth) for depth in range(self.max_depth)]`. -/
noncomputable def splitProbLevels (D F : Nat) (x : Nat → Nat → ℝ)
    (sW : Nat → Nat → Nat → Nat → ℝ) (sB sS : Nat → Nat → Nat → ℝ) :
    List (Nat → Nat → Nat → ℝ) :=
  (List.range D).map (build_split_prob F x sW sB sS)

/-- Model of `tf.reduce_prod(tf.stack(levels, axis=3), axis=3)`: the product across
the stacked level axis, i.e. the path probability of leaf `l` for batch item
`b` and tree `t`. -/
noncomputable def terminalProbOf (levels : List (Nat → Nat → Nat → ℝ))
    (l b t : Nat) : ℝ :=
  (levels.map (fun p => p l b t)).prod

/-- Model of `tf.stack(values, axis)`, which requires a nonempty list of tensors; on an empty
list it raises (`none`). -/
def tfStack {α : Type} (ts : List α) : Option (List α) :=
  if ts.isEmpty then none else some ts

/-- The leaf prediction tensor
`tf.matmul(tf.gather(predictors, [0] * 2^max_depth), terminal_weight) + terminal_bias`
at leaf `l`, batch item `b`, tree `t`. -/
noncomputable def terminal_pred (F : Nat) (x : Nat → Nat → ℝ)
    (tW : Nat → Nat → Nat → ℝ) (tB : Nat → Nat → ℝ) (l b t : Nat) : ℝ :=
  (∑ f ∈ Finset.range F, x b f * tW l f t) + tB l t

/-- Model of `tf.reduce_sum(terminal_prob * terminal_pred, axis=[0, 2])` for a model of
depth `D` with `T` trees, given the stacked level tensors `levels`: the
prediction for batch item `b`. -/
noncomputable def predFormula (D T F : Nat) (levels : List (Nat → Nat → Nat → ℝ))
    (x : Nat → Nat → ℝ) (tW : Nat → Nat → Nat → ℝ) (tB : Nat → Nat → ℝ)
    (b : Nat) : ℝ :=
  ∑ l ∈ Finset.range (2 ^ D), ∑ t ∈ Finset.range T,
    terminalProbOf levels l b t * terminal_pred F x tW tB l b t

/-- Model of `BrainTree._build_predictions()`: stack the per-level probabilities
(failing on an empty list when `max_depth = 0`), reduce by product, and form
the probability-weighted sum of leaf predictions over leaves and trees. -/
noncomputable def build_predictions (D T F : Nat) (x : Nat → Nat → ℝ)
    (sW : Nat → Nat → Nat → Nat → ℝ) (sB sS : Nat → Nat → Nat → ℝ)
    (tW : Nat → Nat → Nat → ℝ) (tB : Nat → Nat → ℝ) : Option (Nat → ℝ) :=
  (tfStack (splitProbLevels D F x sW sB sS)).map
    (fun levels => predFormula D T F levels x tW tB)

/-! ### Scoring (`TensorFlowModel.score`) -/

/-- The predictor entry `(b, f)` of a served batch, as fed into the
`predictors` placeholder. -/
def batchX (batch : Batch ℝ) : Nat → Nat → ℝ :=
  fun b f => (batch.predictors.getD b []).getD f 0

/-- Model of `tf.losses.mean_squared_error` over a batch of size `B`. -/
noncomputable def mean_squared_error (B : Nat) (pred resp : Nat → ℝ) : ℝ :=
  (∑ b ∈ Finset.range B, (pred b - resp b) ^ 2) / B

/-- Model of `session.run(self.loss, ...)` on one served batch: the mean squared error
between the graph's predictions on the batch's predictors and the batch's
response, for a model of depth `D`, `T` trees, `F` features, batch size `B`. -/
noncomputable def run_loss (D T F B : Nat)
    (sW : Nat → Nat → Nat → Nat → ℝ) (sB sS : Nat → Nat → Nat → ℝ)
    (tW : Nat → Nat → Nat → ℝ) (tB : Nat → Nat → ℝ) (batch : Batch ℝ) : ℝ :=
  mean_squared_error B
    (predFormula D T F (splitProbLevels D F (batchX batch) sW sB sS) (batchX batch) tW tB)
    (fun b => batch.response.getD b 0)

/-- Model of `np.mean` of a list of collected loss values. -/
noncomputable def npMean (l : List ℝ) : ℝ := l.sum / l.length

/-- The `while not data.has_reached_end():` loop of `score`, with explicit
fuel (`none` means the fuel ran out before the feeder signalled the epoch
end).  Each iteration reads and clears the flag; when the flag was clear it
pulls one batch and appends its loss `L batch` to the collected scores. -/
def scoreLoop (L : Batch ℝ → ℝ) (B : Nat) :
    Nat → Rng → TFData ℝ → List ℝ → Option (List ℝ × TFData ℝ × Rng)
  | 0, _, _, _ => none
  | fuel + 1, g, d, acc =>
      if d.reached_end then some (acc, { d with reached_end := false }, g)
      else
        (TFData.get_batch g { d with reached_end := false } B).bind (fun r =>
          scoreLoop L B fuel r.2.2 r.2.1 (acc ++ [L r.1]))

/-- Model of `TensorFlowModel.score(data)`: loop until the feeder signals the epoch
end, then return `math.sqrt(np.mean(scores))`. -/
noncomputable def score (L : Batch ℝ → ℝ) (B fuel : Nat) (g : Rng) (d : TFData ℝ) :
    Option ℝ :=
  (scoreLoop L B fuel g d []).map (fun r => Real.sqrt (npMean r.1))

end Braintree

namespace Braintree

/-! ### General list and arithmetic helper lemmas -/

theorem list_prod_map_range (n : Nat) (f : Nat → ℝ) :
    ((List.range n).map f).prod = ∏ d ∈ Finset.range n, f d := by
  induction n with
  | zero => simp
  | succ n ih =>
      rw [List.range_succ, List.map_append, List.prod_append, Finset.prod_range_succ, ih]
      simp only [List.map_cons, List.map_nil, List.prod_cons, List.prod_nil, mul_one]

theorem getD_map_range {α : Type} (l : List α) (a : α) :
    (List.range l.length).map (fun i => l.getD i a) = l := by
  induction l with
  | nil => simp
  | cons x t ih =>
      rw [List.length_cons, List.range_succ_eq_map, List.map_cons, List.map_map]
      have hc : ((fun i => (x :: t).getD i a) ∘ Nat.succ) = (fun i => t.getD i a) := rfl
      rw [hc, ih, List.getD_cons_zero]

theorem take_add_split {α : Type} (l : List α) (a b : Nat) :
    l.take (a + b) = l.take a ++ (l.drop a).take b := by
  induction a generalizing l with
  | zero => simp
  | succ a ih =>
      cases l with
      | nil => simp
      | cons x t => simp [Nat.succ_add, ih]

theorem flatten_length_of_width {α : Type} (F : Nat) :
    ∀ (rows : List (List α)), (∀ r ∈ rows, r.length = F) →
      rows.flatten.length = rows.length * F := by
  intro rows
  induction rows with
  | nil => simp
  | cons r t ih =>
      intro h
      have hr : r.length = F := h r (by simp)
      have ht : t.flatten.length = t.length * F := ih (fun s hs => h s (by simp [hs]))
      simp [hr, ht, Nat.succ_mul, Nat.add_comm]

theorem takeChunks_flatten {α : Type} (F : Nat) :
    ∀ (rows : List (List α)), (∀ r ∈ rows, r.length = F) →
      takeChunks F rows.length rows.flatten = rows := by
  intro rows
  induction rows with
  | nil => intro _; simp [takeChunks]
  | cons r t ih =>
      intro h
      have hr : r.length = F := h r (by simp)
      have h1 : (r ++ t.flatten).take F = r := List.take_left' hr
      have h2 : (r ++ t.flatten).drop F = t.flatten := List.drop_left' hr
      simp only [List.length_cons, List.flatten_cons, takeChunks, h1, h2]
      rw [ih (fun s hs => h s (by simp [hs]))]

/-! ### Path probabilities sum to one across the leaves -/

/-- Core algebraic fact behind claim C1: for any family `q d n` of per-level,
per-node routing probabilities, summing over all `2^D` leaves the product
across levels of the concat-with-complement tensor sampled at `l % 2^(d+1)`
gives exactly `1`. -/
theorem sum_prod_pwc (q : Nat → Nat → ℝ) :
    ∀ D : Nat,
      ∑ l ∈ Finset.range (2 ^ D), ∏ d ∈ Finset.range D, pwcF (q d) (2 ^ d) (l % 2 ^ (d + 1)) = 1 := by
  intro D
  induction D with
  | zero => simp
  | succ D ih =>
      have hsplit : (2 : Nat) ^ (D + 1) = 2 ^ D + 2 ^ D := by ring
      rw [hsplit, Finset.sum_range_add]
      have hlow : ∀ l ∈ Finset.range (2 ^ D),
          (∏ d ∈ Finset.range (D + 1), pwcF (q d) (2 ^ d) (l % 2 ^ (d + 1)))
            = (∏ d ∈ Finset.range D, pwcF (q d) (2 ^ d) (l % 2 ^ (d + 1))) * q D l := by
        intro l hl
        rw [Finset.mem_range] at hl
        rw [Finset.prod_range_succ]
        have hmod : l % 2 ^ (D + 1) = l :=
          Nat.mod_eq_of_lt (lt_of_lt_of_le hl (by
            have : (2 : Nat) ^ D ≤ 2 ^ (D + 1) := Nat.pow_le_pow_right (by omega) (by omega)
            omega))
        rw [hmod]
        have : pwcF (q D) (2 ^ D) l = q D l := by
          unfold pwcF
          rw [if_pos hl]
        rw [this]
      have hhigh : ∀ m ∈ Finset.range (2 ^ D),
          (∏ d ∈ Finset.range (D + 1), pwcF (q d) (2 ^ d) ((2 ^ D + m) % 2 ^ (d + 1)))
            = (∏ d ∈ Finset.range D, pwcF (q d) (2 ^ d) (m % 2 ^ (d + 1))) * (1 - q D m) := by
        intro m hm
        rw [Finset.mem_range] at hm
        rw [Finset.prod_range_succ]
        have hlevels : ∀ d ∈ Finset.range D,
            pwcF (q d) (2 ^ d) ((2 ^ D + m) % 2 ^ (d + 1))
              = pwcF (q d) (2 ^ d) (m % 2 ^ (d + 1)) := by
          intro d hd
          rw [Finset.mem_range] at hd
          obtain ⟨c, hc⟩ : ∃ c, (2 : Nat) ^ D = 2 ^ (d + 1) * c :=
            ⟨2 ^ (D - (d + 1)), by rw [← pow_add]; congr 1; omega⟩
          rw [hc, Nat.mul_add_mod]
        rw [Finset.prod_congr rfl hlevels]
        have hlt : 2 ^ D + m < 2 ^ (D + 1) := by
          have : (2 : Nat) ^ (D + 1) = 2 ^ D + 2 ^ D := by ring
          omega
        have hmod : (2 ^ D + m) % 2 ^ (D + 1) = 2 ^ D + m := Nat.mod_eq_of_lt hlt
        rw [hmod]
        have : pwcF (q D) (2 ^ D) (2 ^ D + m) = 1 - q D m := by
          unfold pwcF
          rw [if_neg (by omega), Nat.add_sub_cancel_left]
        rw [this]
      rw [Finset.sum_congr rfl hlow, Finset.sum_congr rfl hhigh, ← Finset.sum_add_distrib]
      have hmerge : ∀ m ∈ Finset.range (2 ^ D),
          (∏ d ∈ Finset.range D, pwcF (q d) (2 ^ d) (m % 2 ^ (d + 1))) * q D m
            + (∏ d ∈ Finset.range D, pwcF (q d) (2 ^ d) (m % 2 ^ (d + 1))) * (1 - q D m)
            = ∏ d ∈ Finset.range D, pwcF (q d) (2 ^ d) (m % 2 ^ (d + 1)) := by
        intro m _
        ring
      rw [Finset.sum_congr rfl hmerge, ih]

/-- The stacked-and-multiplied path probability of leaf `l` equals the
`Finset` product of the per-level gathered tensors. -/
theorem terminalProbOf_splitProbLevels (D F : Nat) (x : Nat → Nat → ℝ)
    (sW : Nat → Nat → Nat → Nat → ℝ) (sB sS : Nat → Nat → Nat → ℝ) (l b t : Nat) :
    terminalProbOf (splitProbLevels D F x sW sB sS) l b t
      = ∏ d ∈ Finset.range D, build_split_prob F x sW sB sS d l b t := by
  unfold terminalProbOf splitProbLevels
  rw [List.map_map, ← list_prod_map_range]
  rfl

theorem splitProbLevels_ne_nil (D F : Nat) (hD : 1 ≤ D) (x : Nat → Nat → ℝ)
    (sW : Nat → Nat → Nat → Nat → ℝ) (sB sS : Nat → Nat → Nat → ℝ) :
    splitProbLevels D F x sW sB sS ≠ [] := by
  unfold splitProbLevels
  simp only [ne_eq, List.map_eq_nil_iff, List.range_eq_nil]
  omega

/-- Claim C1: for every `max_depth D ≥ 1`, tree count `T ≥ 1` and any split
parameters, the per-leaf path probabilities — the product across stacked
levels of the replicated concat-with-complement tensors — sum to exactly `1`
over all `2^D` leaves, for every batch item `b` and tree `t`. -/
theorem c1_path_probabilities_sum_to_one (D T : Nat) (hD : 1 ≤ D) (hT : 1 ≤ T)
    (F : Nat) (x : Nat → Nat → ℝ) (sW : Nat → Nat → Nat → Nat → ℝ)
    (sB sS : Nat → Nat → Nat → ℝ) (b t : Nat) :
    ∑ l ∈ Finset.range (2 ^ D),
      terminalProbOf (splitProbLevels D F x sW sB sS) l b t = 1 := by
  rw [Finset.sum_congr rfl
    (fun l _ => terminalProbOf_splitProbLevels D F x sW sB sS l b t)]
  have h := sum_prod_pwc (fun d n => split_prob_node F x sW sB sS d n b t) D
  simpa [build_split_prob] using h

/-- Witness for C1 at `D = 1`, `T = 1`, all parameters zero. -/
theorem c1_witness :
    1 ≤ 1 ∧
      ∑ l ∈ Finset.range (2 ^ 1),
        terminalProbOf (splitProbLevels 1 1 (fun _ _ => 0) (fun _ _ _ _ => 0)
          (fun _ _ _ => 0) (fun _ _ _ => 0)) l 0 0 = 1 :=
  ⟨by decide,
    c1_path_probabilities_sum_to_one 1 1 (by decide) (by decide) 1
      (fun _ _ => 0) (fun _ _ _ _ => 0) (fun _ _ _ => 0) (fun _ _ _ => 0) 0 0⟩

/-- Claim C2: for `max_depth D ≥ 1` the built prediction node is defined and,
for each batch item, equals the sum over all trees and all `2^D` leaves of
`path_probability * (predictors · terminal_weight + terminal_bias)` — the
trees being combined by summation. -/
theorem c2_prediction_is_weighted_leaf_sum (D T F : Nat) (hD : 1 ≤ D)
    (x : Nat → Nat → ℝ) (sW : Nat → Nat → Nat → Nat → ℝ)
    (sB sS : Nat → Nat → Nat → ℝ) (tW : Nat → Nat → Nat → ℝ)
    (tB : Nat → Nat → ℝ) :
    build_predictions D T F x sW sB sS tW tB
        = some (predFormula D T F (splitProbLevels D F x sW sB sS) x tW tB)
      ∧ ∀ b, predFormula D T F (splitProbLevels D F x sW sB sS) x tW tB b
          = ∑ t ∈ Finset.range T, ∑ l ∈ Finset.range (2 ^ D),
              terminalProbOf (splitProbLevels D F x sW sB sS) l b t *
                ((∑ f ∈ Finset.range F, x b f * tW l f t) + tB l t) := by
  constructor
  · have hne := splitProbLevels_ne_nil D F hD x sW sB sS
    simp [build_predictions, tfStack, List.isEmpty_iff, hne]
  · intro b
    unfold predFormula terminal_pred
    rw [Finset.sum_comm]

/-- Witness for C2 at `D = 1`, `T = 1`, `F = 1`, all parameters zero,
batch item `0`. -/
theorem c2_witness :
    build_predictions 1 1 1 (fun _ _ => 0) (fun _ _ _ _ => 0) (fun _ _ _ => 0)
        (fun _ _ _ => 0) (fun _ _ _ => 0) (fun _ _ => 0)
      = some (predFormula 1 1 1
          (splitProbLevels 1 1 (fun _ _ => 0) (fun _ _ _ _ => 0) (fun _ _ _ => 0)
            (fun _ _ _ => 0)) (fun _ _ => 0) (fun _ _ _ => 0) (fun _ _ => 0))
      ∧ predFormula 1 1 1
          (splitProbLevels 1 1 (fun _ _ => 0) (fun _ _ _ _ => 0) (fun _ _ _ => 0)
            (fun _ _ _ => 0)) (fun _ _ => 0) (fun _ _ _ => 0) (fun _ _ => 0) 0
          = ∑ t ∈ Finset.range 1, ∑ l ∈ Finset.range (2 ^ 1),
              terminalProbOf (splitProbLevels 1 1 (fun _ _ => 0) (fun _ _ _ _ => 0)
                (fun _ _ _ => 0) (fun _ _ _ => 0)) l 0 t *
                ((∑ f ∈ Finset.range 1, (fun _ _ => (0 : ℝ)) 0 f * (fun _ _ _ => (0 : ℝ)) l f t)
                  + (fun _ _ => (0 : ℝ)) l t) :=
  ⟨(c2_prediction_is_weighted_leaf_sum 1 1 1 (by decide) (fun _ _ => 0)
      (fun _ _ _ _ => 0) (fun _ _ _ => 0) (fun _ _ _ => 0) (fun _ _ _ => 0)
      (fun _ _ => 0)).1,
    (c2_prediction_is_weighted_leaf_sum 1 1 1 (by decide) (fun _ _ => 0)
      (fun _ _ _ _ => 0) (fun _ _ _ => 0) (fun _ _ _ => 0) (fun _ _ _ => 0)
      (fun _ _ => 0)).2 0⟩

/-- Counterexample to claim C5: constructing the prediction graph with
`max_depth = 0` does not reduce to a linear regression — it fails outright,
because `tf.stack` is applied to the empty list of per-level probability
tensors (list comprehension over `range(0)`). -/
theorem c5_counterexample_depth_zero_fails :
    build_predictions 0 1 1 (fun _ _ => 0) (fun _ _ _ _ => 0) (fun _ _ _ => 0)
      (fun _ _ _ => 0) (fun _ _ _ => 0) (fun _ _ => 0) = none := by
  simp [build_predictions, splitProbLevels, tfStack]

/-- Claim C5 as amended: with `max_depth = 0` the graph construction fails
(`tf.stack` of the empty per-level list raises), so no prediction is produced;
the prediction formula itself, evaluated with an empty level product (the
product over zero levels being `1`), reduces to the pure linear regression
`sum over trees of (terminal_weight · predictors + terminal_bias)`. -/
theorem c5_amended_depth_zero (T F : Nat) (x : Nat → Nat → ℝ)
    (sW : Nat → Nat → Nat → Nat → ℝ) (sB sS : Nat → Nat → Nat → ℝ)
    (tW : Nat → Nat → Nat → ℝ) (tB : Nat → Nat → ℝ) (b : Nat) :
    build_predictions 0 T F x sW sB sS tW tB = none
      ∧ predFormula 0 T F [] x tW tB b
          = ∑ t ∈ Finset.range T, ((∑ f ∈ Finset.range F, x b f * tW 0 f t) + tB 0 t) := by
  constructor
  · simp [build_predictions, splitProbLevels, tfStack]
  · unfold predFormula terminalProbOf terminal_pred
    simp

/-! ### Feeder lemmas: numpy operations on well-formed 2-D data -/

theorem npSliceRows_d2 {γ : Type} (P : List (List γ)) (i B : Nat) :
    npSliceRows (NpArray.d2 P) i (i + B) = some ((P.drop i).take B) := by
  simp only [npSliceRows, Nat.add_sub_cancel_left]

theorem npReshape3_exact {γ : Type} (rows : List (List γ)) (B F : Nat)
    (hlen : rows.length = B) (hw : ∀ r ∈ rows, r.length = F) :
    npReshape3 rows B F = some rows := by
  unfold npReshape3
  rw [flatten_length_of_width F rows hw, hlen, if_pos rfl, ← hlen,
    takeChunks_flatten F rows hw]

theorem npReshape1_exact {γ : Type} (rows : List (List γ)) (B : Nat)
    (hlen : rows.length = B) (hw : ∀ r ∈ rows, r.length = 1) :
    npReshape1 rows B = some rows.flatten := by
  unfold npReshape1
  rw [flatten_length_of_width 1 rows hw, hlen, Nat.mul_one, if_pos rfl]

theorem npFancyRows_valid {γ : Type} (rows : List (List γ)) (order : List Nat)
    (h : ∀ j ∈ order, j < rows.length) :
    npFancyRows (NpArray.d2 rows) order = some (order.map (fun i => rows.getD i [])) := by
  simp only [npFancyRows]
  rw [if_pos]
  rw [List.all_eq_true]
  intro j hj
  exact decide_eq_true (h j hj)

theorem zip_eq_map_range {α β : Type} (a : α) (b : β) :
    ∀ (n : Nat) (P : List α) (R : List β), P.length = n → R.length = n →
      P.zip R = (List.range n).map (fun i => (P.getD i a, R.getD i b)) := by
  intro n
  induction n with
  | zero =>
      intro P R hP hR
      rw [List.length_eq_zero] at hP hR
      subst hP; subst hR
      simp
  | succ n ih =>
      intro P R hP hR
      cases P with
      | nil => simp at hP
      | cons x t =>
          cases R with
          | nil => simp at hR
          | cons y s =>
              simp only [List.length_cons, Nat.succ.injEq] at hP hR
              rw [List.zip_cons_cons, List.range_succ_eq_map, List.map_cons, List.map_map]
              have hc : ((fun i => ((x :: t).getD i a, (y :: s).getD i b)) ∘ Nat.succ)
                  = (fun i => (t.getD i a, s.getD i b)) := rfl
              rw [hc, ← ih t s hP hR]
              rfl

/-- Applying the same index list to both row lists and zipping gives the
map of the paired lookup. -/
theorem zip_map_getD {γ : Type} (P R : List (List γ)) (order : List Nat) :
    (order.map (fun i => P.getD i [])).zip (order.map (fun i => R.getD i []))
      = order.map (fun i => (P.getD i [], R.getD i [])) :=
  List.zip_map' (fun i => P.getD i []) (fun i => R.getD i []) order

/-- Running `shuffle` on a feeder holding 2-D data of matching lengths always
succeeds, applies one permutation of `range num_observations` jointly to both
row lists, and so permutes the zipped (predictor-row, response-row) pairs. -/
theorem shuffle_some_perm {γ : Type} (g : Rng) (d : TFData γ) (seed : Option Nat)
    (P R : List (List γ)) (hp : d.predictors = .d2 P) (hr : d.response = .d2 R)
    (hlp : P.length = d.num_observations) (hlr : R.length = d.num_observations) :
    ∃ P' R' g', TFData.shuffle g d seed
        = some ({ d with predictors := .d2 P', response := .d2 R' }, g')
      ∧ (P'.zip R').Perm (P.zip R)
      ∧ P'.length = P.length ∧ R'.length = R.length
      ∧ (∀ r ∈ P', r ∈ P) ∧ (∀ r ∈ R', r ∈ R) := by
  set g1 := if seedTruthy seed then npSeed (seed.getD 0) else g with hg1
  set order := (npPermutation g1 d.num_observations).1 with horder
  have horder_mem : ∀ j ∈ order, j < d.num_observations := by
    intro j hj
    rw [horder] at hj
    unfold npPermutation at hj
    rw [List.mem_rotate, List.mem_range] at hj
    exact hj
  have horder_len : order.length = d.num_observations := by
    rw [horder]
    unfold npPermutation
    rw [List.length_rotate, List.length_range]
  have horder_perm : order.Perm (List.range d.num_observations) := by
    rw [horder]
    exact List.rotate_perm (List.range d.num_observations) g1.state
  refine ⟨order.map (fun i => P.getD i []), order.map (fun i => R.getD i []),
    (npPermutation g1 d.num_observations).2, ?_, ?_, ?_, ?_, ?_, ?_⟩
  · simp only [TFData.shuffle, hp, hr]
    rw [← hg1, ← horder,
      npFancyRows_valid P order (fun j hj => hlp ▸ horder_mem j hj),
      npFancyRows_valid R order (fun j hj => hlr ▸ horder_mem j hj),
      Option.some_bind, Option.map_some']
  · rw [zip_map_getD,
      zip_eq_map_range ([] : List γ) ([] : List γ) d.num_observations P R hlp hlr]
    exact horder_perm.map (fun i => (P.getD i [], R.getD i []))
  · rw [List.length_map, horder_len, hlp]
  · rw [List.length_map, horder_len, hlr]
  · intro r hrm
    rw [List.mem_map] at hrm
    obtain ⟨j, hj, rfl⟩ := hrm
    have hjP : j < P.length := hlp ▸ horder_mem j hj
    rw [List.getD_eq_getElem?_getD, List.getElem?_eq_getElem hjP]
    exact List.getElem_mem hjP
  · intro r hrm
    rw [List.mem_map] at hrm
    obtain ⟨j, hj, rfl⟩ := hrm
    have hjR : j < R.length := hlr ▸ horder_mem j hj
    rw [List.getD_eq_getElem?_getD, List.getElem?_eq_getElem hjR]
    exact List.getElem_mem hjR

/-- The operation `_update_batch_index` either leaves the data untouched or (on an epoch
wrap with shuffling enabled) applies a joint permutation: the zipped
(predictor-row, response-row) pairs of the resulting state are a permutation
of the original ones. -/
theorem update_data_perm {γ : Type} (g : Rng) (d : TFData γ) (B : Nat)
    (P R : List (List γ)) (hp : d.predictors = .d2 P) (hr : d.response = .d2 R)
    (hlp : P.length = d.num_observations) (hlr : R.length = d.num_observations) :
    ∀ {d' : TFData γ} {g' : Rng}, TFData.update_batch_index g d B = some (d', g') →
      ∃ P' R', d'.predictors = .d2 P' ∧ d'.response = .d2 R'
        ∧ (P'.zip R').Perm (P.zip R) := by
  intro d' g' h
  simp only [TFData.update_batch_index] at h
  split at h
  · split at h
    · obtain ⟨P', R', g2, heq, hperm, _, _, _, _⟩ :=
        shuffle_some_perm g
          { d with batch_index := 0, reached_end := true } none P R hp hr hlp hlr
      rw [heq] at h
      rw [Option.some.injEq, Prod.mk.injEq] at h
      obtain ⟨h1, h2⟩ := h
      subst h1
      subst h2
      exact ⟨P', R', rfl, rfl, hperm⟩
    · rw [Option.some.injEq, Prod.mk.injEq] at h
      obtain ⟨h1, h2⟩ := h
      subst h1
      subst h2
      exact ⟨P, R, hp, hr, List.Perm.refl _⟩
  · rw [Option.some.injEq, Prod.mk.injEq] at h
    obtain ⟨h1, h2⟩ := h
    subst h1
    subst h2
    exact ⟨P, R, hp, hr, List.Perm.refl _⟩

/-- Claim C6: `shuffle()` applies one and the same permutation to the
predictor rows and the response rows, so the multiset of
(predictor-row, response-row) pairs is unchanged by `shuffle`, and the
row-correspondence invariant is preserved by every feeder operation
(`has_reached_end` and `reset_batch_index` leave the data untouched, and any
successful `get_batch` at worst jointly permutes it on an epoch wrap). -/
theorem c6_joint_permutation_invariant {γ : Type} (d : TFData γ)
    (P R : List (List γ)) (g : Rng) (seed : Option Nat)
    (hp : d.predictors = .d2 P) (hr : d.response = .d2 R)
    (hlp : P.length = d.num_observations) (hlr : R.length = d.num_observations) :
    (∃ P' R' g', TFData.shuffle g d seed
        = some ({ d with predictors := .d2 P', response := .d2 R' }, g')
      ∧ (P'.zip R').Perm (P.zip R))
    ∧ (TFData.has_reached_end d).2.predictors = d.predictors
    ∧ (TFData.has_reached_end d).2.response = d.response
    ∧ (TFData.reset_batch_index d).predictors = d.predictors
    ∧ (TFData.reset_batch_index d).response = d.response
    ∧ ∀ B batch d' g', TFData.get_batch g d B = some (batch, d', g') →
        ∃ P' R', d'.predictors = .d2 P' ∧ d'.response = .d2 R'
          ∧ (P'.zip R').Perm (P.zip R) := by
  refine ⟨?_, rfl, rfl, rfl, rfl, ?_⟩
  · obtain ⟨P', R', g', heq, hperm, _, _, _, _⟩ :=
      shuffle_some_perm g d seed P R hp hr hlp hlr
    exact ⟨P', R', g', heq, hperm⟩
  · intro B batch d' g' h
    simp only [TFData.get_batch, Option.bind_eq_some, Option.map_eq_some'] at h
    obtain ⟨ps, _, pb, _, rs, _, rb, _, dg, hupd, hout⟩ := h
    rw [Prod.mk.injEq, Prod.mk.injEq] at hout
    obtain ⟨-, hd', -⟩ := hout
    rw [← hd']
    exact update_data_perm g d B P R hp hr hlp hlr hupd

/-- Witness for C6 on a concrete two-row feeder. -/
theorem c6_witness :
    (∃ P' R' g', TFData.shuffle ⟨0⟩ (feederSt [[1], [2]] [[3], [4]] 1 true 0 false)
        (none : Option Nat)
        = some ({ feederSt [[1], [2]] [[3], [4]] 1 true 0 false with
            predictors := .d2 P', response := .d2 R' }, g')
      ∧ (P'.zip R').Perm ([[1], [2]].zip [[3], [4]]))
    ∧ (TFData.has_reached_end (feederSt [[1], [2]] [[3], [4]] 1 true 0 false)).2.predictors
        = (feederSt [[1], [2]] [[3], [4]] 1 true 0 false).predictors
    ∧ (TFData.has_reached_end (feederSt [[1], [2]] [[3], [4]] 1 true 0 false)).2.response
        = (feederSt [[1], [2]] [[3], [4]] 1 true 0 false).response
    ∧ (TFData.reset_batch_index (feederSt [[1], [2]] [[3], [4]] 1 true 0 false)).predictors
        = (feederSt [[1], [2]] [[3], [4]] 1 true 0 false).predictors
    ∧ (TFData.reset_batch_index (feederSt [[1], [2]] [[3], [4]] 1 true 0 false)).response
        = (feederSt [[1], [2]] [[3], [4]] 1 true 0 false).response
    ∧ ∀ B batch d' g',
        TFData.get_batch ⟨0⟩ (feederSt [[1], [2]] [[3], [4]] 1 true 0 false) B
          = some (batch, d', g') →
        ∃ P' R', d'.predictors = .d2 P' ∧ d'.response = .d2 R'
          ∧ (P'.zip R').Perm ([[1], [2]].zip [[3], [4]]) :=
  c6_joint_permutation_invariant (feederSt [[1], [2]] [[3], [4]] 1 true 0 false)
    [[1], [2]] [[3], [4]] ⟨0⟩ none rfl rfl (by decide) (by decide)

/-- Counterexample to claim C7: a seed of `0` is falsy in Python, so
`shuffle(random_seed=0)` does not reseed the generator; two calls on feeders
with identical predictor and response contents but different ambient
generator states produce different output orders. -/
theorem c7_counterexample_seed_zero :
    (TFData.shuffle ⟨0⟩ (feederSt [[1], [2]] [[3], [4]] 1 true 0 false) (some 0)).map
        (fun r => (r.1.predictors, r.1.response))
      ≠ (TFData.shuffle ⟨1⟩ (feederSt [[1], [2]] [[3], [4]] 1 true 0 false) (some 0)).map
        (fun r => (r.1.predictors, r.1.response)) := by
  decide

/-- Claim C7 as amended: for every provided nonzero seed `s`, two independent
`shuffle(s)` calls on feeders with identical contents produce identical
results regardless of the ambient generator state (in particular for
`s = 42`); seed `0` is falsy in Python's truthiness test, is ignored, and
leaves the shuffle dependent on the ambient generator state. -/
theorem c7_amended_nonzero_seed_deterministic {γ : Type} (s : Nat) (hs : s ≠ 0)
    (g1 g2 : Rng) (d : TFData γ) :
    TFData.shuffle g1 d (some s) = TFData.shuffle g2 d (some s) := by
  have ht : seedTruthy (some s) = true := by
    unfold seedTruthy
    exact decide_eq_true hs
  simp only [TFData.shuffle, ht, if_true]

/-- Witness for the amended C7 at seed `42` and two distinct ambient
generator states. -/
theorem c7_witness :
    TFData.shuffle ⟨0⟩ (feederSt [[1], [2]] [[3], [4]] 1 true 0 false) (some 42)
      = TFData.shuffle ⟨1⟩ (feederSt [[1], [2]] [[3], [4]] 1 true 0 false) (some 42) :=
  c7_amended_nonzero_seed_deterministic 42 (by decide) ⟨0⟩ ⟨1⟩
    (feederSt [[1], [2]] [[3], [4]] 1 true 0 false)

/-- Claim C8: `has_reached_end()` returns the current reached-end flag and
clears it; whenever the flag is set, two consecutive calls return `True` then
`False`, and no other feeder state (cursor or data) is modified. -/
theorem c8_flag_read_once {γ : Type} (d : TFData γ) (h : d.reached_end = true) :
    (TFData.has_reached_end d).1 = d.reached_end
    ∧ (TFData.has_reached_end d).2.reached_end = false
    ∧ (TFData.has_reached_end d).1 = true
    ∧ (TFData.has_reached_end (TFData.has_reached_end d).2).1 = false
    ∧ (TFData.has_reached_end d).2.batch_index = d.batch_index
    ∧ (TFData.has_reached_end d).2.predictors = d.predictors
    ∧ (TFData.has_reached_end d).2.response = d.response
    ∧ (TFData.has_reached_end d).2.num_predictors = d.num_predictors
    ∧ (TFData.has_reached_end d).2.num_observations = d.num_observations
    ∧ (TFData.has_reached_end d).2.shuffle_each_epoch = d.shuffle_each_epoch := by
  simp [TFData.has_reached_end, h]

/-- Witness for C8 on a concrete feeder with the flag set. -/
theorem c8_witness :
    (TFData.has_reached_end (feederSt [[1]] [[2]] 1 false 0 true)).1
        = (feederSt [[1]] [[2]] 1 false 0 true).reached_end
    ∧ (TFData.has_reached_end (feederSt [[1]] [[2]] 1 false 0 true)).2.reached_end = false
    ∧ (TFData.has_reached_end (feederSt [[1]] [[2]] 1 false 0 true)).1 = true
    ∧ (TFData.has_reached_end
        (TFData.has_reached_end (feederSt [[1]] [[2]] 1 false 0 true)).2).1 = false
    ∧ (TFData.has_reached_end (feederSt [[1]] [[2]] 1 false 0 true)).2.batch_index
        = (feederSt [[1]] [[2]] 1 false 0 true).batch_index
    ∧ (TFData.has_reached_end (feederSt [[1]] [[2]] 1 false 0 true)).2.predictors
        = (feederSt [[1]] [[2]] 1 false 0 true).predictors
    ∧ (TFData.has_reached_end (feederSt [[1]] [[2]] 1 false 0 true)).2.response
        = (feederSt [[1]] [[2]] 1 false 0 true).response
    ∧ (TFData.has_reached_end (feederSt [[1]] [[2]] 1 false 0 true)).2.num_predictors
        = (feederSt [[1]] [[2]] 1 false 0 true).num_predictors
    ∧ (TFData.has_reached_end (feederSt [[1]] [[2]] 1 false 0 true)).2.num_observations
        = (feederSt [[1]] [[2]] 1 false 0 true).num_observations
    ∧ (TFData.has_reached_end (feederSt [[1]] [[2]] 1 false 0 true)).2.shuffle_each_epoch
        = (feederSt [[1]] [[2]] 1 false 0 true).shuffle_each_epoch :=
  c8_flag_read_once (feederSt [[1]] [[2]] 1 false 0 true) (by decide)

/-! ### Stepping the feeder through one epoch -/

theorem update_no_wrap {γ : Type} (P R : List (List γ)) (F B i : Nat)
    (se flag : Bool) (g : Rng) (h : i + B + B ≤ P.length) :
    TFData.update_batch_index g (feederSt P R F se i flag) B
      = some (feederSt P R F se (i + B) flag, g) := by
  simp only [TFData.update_batch_index, feederSt]
  rw [if_neg (by omega)]

theorem update_wrap {γ : Type} (P R : List (List γ)) (F B i : Nat)
    (se flag : Bool) (g : Rng) (hgood : GoodData P R F)
    (h : P.length < i + B + B) :
    ∃ P2 R2 g2, TFData.update_batch_index g (feederSt P R F se i flag) B
        = some (feederSt P2 R2 F se 0 true, g2)
      ∧ P2.length = P.length ∧ R2.length = R.length
      ∧ (∀ r ∈ P2, r ∈ P) ∧ (∀ r ∈ R2, r ∈ R) := by
  obtain ⟨hF, hR1, hRP⟩ := hgood
  cases se with
  | false =>
      refine ⟨P, R, g, ?_, rfl, rfl, fun _ hh => hh, fun _ hh => hh⟩
      simp only [TFData.update_batch_index, feederSt]
      rw [if_pos (by omega)]
      simp
  | true =>
      obtain ⟨P2, R2, g2, heq, hperm, hl2, hr2, hmemP, hmemR⟩ :=
        shuffle_some_perm g (feederSt P R F true 0 true) none P R rfl rfl rfl hRP
      refine ⟨P2, R2, g2, ?_, hl2, hr2, hmemP, hmemR⟩
      have hred : TFData.update_batch_index g (feederSt P R F true i flag) B
          = TFData.shuffle g (feederSt P R F true 0 true) none := by
        simp only [TFData.update_batch_index, feederSt]
        rw [if_pos (by omega)]
        rfl
      rw [hred, heq]
      simp [feederSt, hl2]

/-- Evaluating `get_batch` on an in-bounds cursor is the served slice paired with the
result of `_update_batch_index`. -/
theorem get_batch_eq_update {γ : Type} (P R : List (List γ)) (F B i : Nat)
    (se flag : Bool) (g : Rng) (hgood : GoodData P R F)
    (hiB : i + B ≤ P.length) :
    TFData.get_batch g (feederSt P R F se i flag) B
      = (TFData.update_batch_index g (feederSt P R F se i flag) B).map
          (fun dg => (batchAt P R i B, dg.1, dg.2)) := by
  obtain ⟨hF, hR1, hRP⟩ := hgood
  have hslen : ((P.drop i).take B).length = B := by
    rw [List.length_take, List.length_drop]
    omega
  have hsw : ∀ r ∈ (P.drop i).take B, r.length = F :=
    fun r hr => hF r (List.mem_of_mem_drop (List.mem_of_mem_take hr))
  have hrlen : ((R.drop i).take B).length = B := by
    rw [List.length_take, List.length_drop]
    omega
  have hrw : ∀ r ∈ (R.drop i).take B, r.length = 1 :=
    fun r hr => hR1 r (List.mem_of_mem_drop (List.mem_of_mem_take hr))
  conv_lhs => rw [TFData.get_batch]
  rw [show (feederSt P R F se i flag).predictors = NpArray.d2 P from rfl,
    show (feederSt P R F se i flag).response = NpArray.d2 R from rfl,
    show (feederSt P R F se i flag).batch_index = i from rfl,
    show (feederSt P R F se i flag).num_predictors = F from rfl,
    npSliceRows_d2 P i B, Option.some_bind,
    npReshape3_exact _ _ _ hslen hsw, Option.some_bind,
    npSliceRows_d2 R i B, Option.some_bind,
    npReshape1_exact _ _ hrlen hrw, Option.some_bind]
  rfl

theorem get_batch_no_wrap {γ : Type} (P R : List (List γ)) (F B i : Nat)
    (se flag : Bool) (g : Rng) (hgood : GoodData P R F)
    (h : i + B + B ≤ P.length) :
    TFData.get_batch g (feederSt P R F se i flag) B
      = some (batchAt P R i B, feederSt P R F se (i + B) flag, g) := by
  rw [get_batch_eq_update P R F B i se flag g hgood (by omega),
    update_no_wrap P R F B i se flag g h, Option.map_some']

theorem get_batch_wrap {γ : Type} (P R : List (List γ)) (F B i : Nat)
    (se flag : Bool) (g : Rng) (hgood : GoodData P R F)
    (h1 : i + B ≤ P.length) (h2 : P.length < i + B + B) :
    ∃ P2 R2 g2, TFData.get_batch g (feederSt P R F se i flag) B
        = some (batchAt P R i B, feederSt P2 R2 F se 0 true, g2)
      ∧ P2.length = P.length ∧ R2.length = R.length
      ∧ (∀ r ∈ P2, r ∈ P) ∧ (∀ r ∈ R2, r ∈ R) := by
  obtain ⟨P2, R2, g2, hupd, hl2, hr2, hmemP, hmemR⟩ :=
    update_wrap P R F B i se flag g hgood h2
  refine ⟨P2, R2, g2, ?_, hl2, hr2, hmemP, hmemR⟩
  rw [get_batch_eq_update P R F B i se flag g hgood h1, hupd, Option.map_some']

theorem cons_map_range_mul {α : Type} (h : Nat → α) (i B k : Nat) :
    h i :: (List.range k).map (fun j => h (i + B + j * B))
      = (List.range (k + 1)).map (fun j => h (i + j * B)) := by
  rw [List.range_succ_eq_map, List.map_cons, List.map_map]
  congr 1
  · congr 1
    omega
  · apply List.map_congr_left
    intro j _
    simp only [Function.comp_apply]
    congr 1
    rw [Nat.succ_mul]
    omega

theorem runBatches_succ {γ : Type} (g : Rng) (d : TFData γ) (B k : Nat) :
    runBatches g d B (k + 1)
      = (TFData.get_batch g d B).bind (fun r =>
          (runBatches r.2.2 r.2.1 B k).map (fun s => (r.1 :: s.1, s.2.1, s.2.2))) := rfl

/-- Running `k` batches that stay strictly inside the epoch: each call serves
the next `B` rows, advances the cursor by `B`, and leaves the flag clear and
the data untouched. -/
theorem runBatches_no_wrap {γ : Type} (P R : List (List γ)) (F B : Nat)
    (se : Bool) (hgood : GoodData P R F) :
    ∀ (k i : Nat) (g : Rng), i + k * B + B ≤ P.length →
      runBatches g (feederSt P R F se i false) B k
        = some ((List.range k).map (fun j => batchAt P R (i + j * B) B),
            feederSt P R F se (i + k * B) false, g) := by
  intro k
  induction k with
  | zero =>
      intro i g h
      simp [runBatches]
  | succ k ih =>
      intro i g h
      have hkB : (k + 1) * B = k * B + B := Nat.succ_mul k B
      have hstep : i + B + B ≤ P.length := by
        have : B ≤ (k + 1) * B := Nat.le_mul_of_pos_left B (by omega)
        omega
      rw [runBatches_succ,
        get_batch_no_wrap P R F B i se false g hgood hstep, Option.some_bind,
        ih (i + B) g (by rw [hkB] at h; omega), Option.map_some']
      rw [cons_map_range_mul (fun n => batchAt P R n B) i B k]
      have hst : i + B + k * B = i + (k + 1) * B := by
        rw [hkB]
        omega
      rw [hst]

/-- Running the batch on which the epoch wraps: the final batch is still the
next `B` rows of the pre-wrap data, after which the cursor is `0` and the
reached-end flag is set. -/
theorem runBatches_epoch {γ : Type} (P R : List (List γ)) (F B : Nat)
    (se : Bool) (hgood : GoodData P R F) :
    ∀ (k i : Nat) (g : Rng), i + k * B + B ≤ P.length →
      P.length < i + k * B + B + B →
      ∃ d' g', runBatches g (feederSt P R F se i false) B (k + 1)
          = some ((List.range (k + 1)).map (fun j => batchAt P R (i + j * B) B),
              d', g')
        ∧ d'.reached_end = true ∧ d'.batch_index = 0 := by
  intro k
  induction k with
  | zero =>
      intro i g h1 h2
      obtain ⟨P2, R2, g2, heq, _, _, _, _⟩ :=
        get_batch_wrap P R F B i se false g hgood (by omega) (by omega)
      refine ⟨feederSt P2 R2 F se 0 true, g2, ?_, rfl, rfl⟩
      rw [runBatches_succ, heq, Option.some_bind]
      simp only [runBatches, Option.map_some']
      simp [List.range_succ]
  | succ k ih =>
      intro i g h1 h2
      have hkB : (k + 1) * B = k * B + B := Nat.succ_mul k B
      have hstep : i + B + B ≤ P.length := by
        have : B ≤ (k + 1) * B := Nat.le_mul_of_pos_left B (by omega)
        omega
      obtain ⟨d', g', hrb, hflag, hidx⟩ :=
        ih (i + B) g (by rw [hkB] at h1; omega) (by rw [hkB] at h2; omega)
      refine ⟨d', g', ?_, hflag, hidx⟩
      rw [runBatches_succ,
        get_batch_no_wrap P R F B i se false g hgood hstep, Option.some_bind,
        hrb, Option.map_some']
      rw [cons_map_range_mul (fun n => batchAt P R n B) i B (k + 1)]

/-- The served batches of one epoch, concatenated, are exactly the first
`q*B` rows in order. -/
theorem flatten_batches_take {γ : Type} (P : List (List γ)) (B : Nat) :
    ∀ q : Nat, q * B ≤ P.length →
      ((List.range q).map (fun j => (P.drop (j * B)).take B)).flatten
        = P.take (q * B) := by
  intro q
  induction q with
  | zero => simp
  | succ q ih =>
      intro h
      have hq : q * B ≤ P.length := by
        rw [Nat.succ_mul] at h
        omega
      rw [List.range_succ, List.map_append, List.flatten_append, ih hq]
      simp only [List.map_cons, List.map_nil, List.flatten_cons, List.flatten_nil,
        List.append_nil]
      rw [Nat.succ_mul, take_add_split]

/-- Running `__init__` on a nonempty 2-D predictor matrix of width `F` produces
exactly the `feederSt` state with cursor `0` and the flag clear. -/
theorem init_eq_feederSt {γ : Type} (P R : List (List γ)) (F : Nat) (se : Bool)
    (hne : P ≠ []) (hF : ∀ r ∈ P, r.length = F) :
    TFData.init (NpArray.d2 P) (NpArray.d2 R) se = some (feederSt P R F se 0 false) := by
  cases P with
  | nil => exact absurd rfl hne
  | cons p t =>
      have hw : p.length = F := hF p (by simp)
      simp [TFData.init, npShape1, npShape0, feederSt, hw]

/-- Claim C3: from a freshly initialised feeder over `N` rows with batch size
`1 ≤ B ≤ N`, an epoch consists of exactly `⌊N/B⌋` batches: after any
`k < ⌊N/B⌋` calls the reached-end flag is still clear and the cursor is at
`k*B`, the `⌊N/B⌋`-th call wraps (cursor `0`, flag set), the `k`-th batch
serves rows `k*B .. k*B+B-1` of the original data, and the batches
concatenated are exactly rows `0 .. ⌊N/B⌋*B - 1`, each once, in order — so
when `B ∤ N` the trailing `N mod B` rows are never served. -/
theorem c3_epoch_serves_floor_div_batches {γ : Type} (P R : List (List γ))
    (F B : Nat) (se : Bool) (g : Rng) (hgood : GoodData P R F)
    (hB : 1 ≤ B) (hBN : B ≤ P.length) :
    TFData.init (NpArray.d2 P) (NpArray.d2 R) se = some (feederSt P R F se 0 false)
    ∧ (∀ k, k < P.length / B →
        runBatches g (feederSt P R F se 0 false) B k
          = some ((List.range k).map (fun j => batchAt P R (j * B) B),
              feederSt P R F se (k * B) false, g))
    ∧ (∃ d' g', runBatches g (feederSt P R F se 0 false) B (P.length / B)
          = some ((List.range (P.length / B)).map (fun j => batchAt P R (j * B) B),
              d', g')
        ∧ d'.reached_end = true ∧ d'.batch_index = 0)
    ∧ ((List.range (P.length / B)).map
          (fun j => (batchAt P R (j * B) B).predictors)).flatten
        = P.take (P.length / B * B) := by
  have hq1 : 1 ≤ P.length / B := (Nat.one_le_div_iff (by omega)).mpr hBN
  have hqB : P.length / B * B ≤ P.length := Nat.div_mul_le_self P.length B
  have hqBB : P.length < P.length / B * B + B := by
    have hmod := Nat.div_add_mod P.length B
    have hlt : P.length % B < B := Nat.mod_lt P.length (by omega)
    have hc : P.length / B * B = B * (P.length / B) := Nat.mul_comm _ _
    omega
  have hne : P ≠ [] := by
    intro hnil
    rw [hnil] at hBN
    simp at hBN
    omega
  refine ⟨init_eq_feederSt P R F se hne hgood.1, ?_, ?_, ?_⟩
  · intro k hk
    have hkB : k * B + B ≤ P.length := by
      have : (k + 1) * B ≤ P.length / B * B :=
        Nat.mul_le_mul_right B (by omega)
      rw [Nat.succ_mul] at this
      omega
    have h := runBatches_no_wrap P R F B se hgood k 0 g (by omega)
    simpa using h
  · obtain ⟨q', hq'⟩ : ∃ q', P.length / B = q' + 1 := ⟨P.length / B - 1, by omega⟩
    rw [hq'] at hqB hqBB
    rw [hq']
    have hcond1 : 0 + q' * B + B ≤ P.length := by
      rw [Nat.succ_mul] at hqB
      omega
    have hcond2 : P.length < 0 + q' * B + B + B := by
      rw [Nat.succ_mul] at hqBB
      omega
    obtain ⟨d', g', hrun, hflag, hidx⟩ :=
      runBatches_epoch P R F B se hgood q' 0 g hcond1 hcond2
    refine ⟨d', g', ?_, hflag, hidx⟩
    simpa using hrun
  · have h := flatten_batches_take P B (P.length / B) hqB
    exact h

/-- Witness for C3: three rows, batch size two — one full batch is served,
the flag then fires, and row `2` is silently skipped. -/
theorem c3_witness :
    TFData.init (NpArray.d2 [[0], [1], [2]]) (NpArray.d2 [[5], [6], [7]]) false
        = some (feederSt [[0], [1], [2]] [[5], [6], [7]] 1 false 0 false)
    ∧ (∀ k, k < [[0], [1], [2]].length / 2 →
        runBatches ⟨0⟩ (feederSt [[0], [1], [2]] [[5], [6], [7]] 1 false 0 false) 2 k
          = some ((List.range k).map
              (fun j => batchAt [[0], [1], [2]] [[5], [6], [7]] (j * 2) 2),
              feederSt [[0], [1], [2]] [[5], [6], [7]] 1 false (k * 2) false, ⟨0⟩))
    ∧ (∃ d' g', runBatches ⟨0⟩ (feederSt [[0], [1], [2]] [[5], [6], [7]] 1 false 0 false) 2
            ([[0], [1], [2]].length / 2)
          = some ((List.range ([[0], [1], [2]].length / 2)).map
              (fun j => batchAt [[0], [1], [2]] [[5], [6], [7]] (j * 2) 2), d', g')
        ∧ d'.reached_end = true ∧ d'.batch_index = 0)
    ∧ ((List.range ([[0], [1], [2]].length / 2)).map
          (fun j => (batchAt [[0], [1], [2]] [[5], [6], [7]] (j * 2) 2).predictors)).flatten
        = [[0], [1], [2]].take ([[0], [1], [2]].length / 2 * 2) :=
  c3_epoch_serves_floor_div_batches [[0], [1], [2]] [[5], [6], [7]] 1 2 false ⟨0⟩
    ⟨by decide, by decide, by decide⟩ (by decide) (by decide)

/-- Counterexample to claim C9: on the spec's data model — a 2-D predictor
matrix and a 1-dimensional response vector of shape `[N]` — construction
succeeds, but both `get_batch` and `shuffle` raise an `IndexError` (the code
indexes the response as `response[a:b, :]` and `response[order, :]`, which
requires two dimensions). -/
theorem c9_counterexample_1d_response :
    TFData.init (NpArray.d2 [[1], [2]]) (NpArray.d1 [5, 6]) false
        = some { predictors := NpArray.d2 [[1], [2]], num_predictors := 1,
                 response := NpArray.d1 [5, 6], batch_index := 0,
                 reached_end := false, num_observations := 2,
                 shuffle_each_epoch := false }
    ∧ TFData.get_batch ⟨0⟩
        { predictors := NpArray.d2 [[1], [2]], num_predictors := 1,
          response := NpArray.d1 [5, 6], batch_index := 0,
          reached_end := false, num_observations := 2,
          shuffle_each_epoch := false } 1 = none
    ∧ TFData.shuffle ⟨0⟩
        { predictors := NpArray.d2 [[1], [2]], num_predictors := 1,
          response := NpArray.d1 [5, 6], batch_index := 0,
          reached_end := false, num_observations := 2,
          shuffle_each_epoch := false } none = none := by
  decide

/-- Claim C9 as amended: with the response held as a 2-D `[N, 1]` matrix
(as the code actually requires), `get_batch` and `shuffle` are well-defined
whenever the cursor stays in bounds, and `get_batch` returns a response slice
of shape `[batch_size]` (and a predictor batch of `batch_size` rows). -/
theorem c9_amended_2d_response_welldefined {γ : Type} (P R : List (List γ))
    (F B i : Nat) (se flag : Bool) (g : Rng) (hgood : GoodData P R F)
    (hiB : i + B ≤ P.length) :
    (∃ batch d' g', TFData.get_batch g (feederSt P R F se i flag) B
        = some (batch, d', g')
      ∧ batch.response.length = B ∧ batch.predictors.length = B)
    ∧ ∃ d2 g2, TFData.shuffle g (feederSt P R F se i flag) none = some (d2, g2) := by
  obtain ⟨hF, hR1, hRP⟩ := hgood
  constructor
  · have hupd : ∃ dg, TFData.update_batch_index g (feederSt P R F se i flag) B
        = some dg := by
      by_cases hw : P.length < i + B + B
      · obtain ⟨P2, R2, g2, heq, _, _, _, _⟩ :=
          update_wrap P R F B i se flag g ⟨hF, hR1, hRP⟩ hw
        exact ⟨_, heq⟩
      · exact ⟨_, update_no_wrap P R F B i se flag g (by omega)⟩
    obtain ⟨dg, hdg⟩ := hupd
    refine ⟨batchAt P R i B, dg.1, dg.2, ?_, ?_, ?_⟩
    · rw [get_batch_eq_update P R F B i se flag g ⟨hF, hR1, hRP⟩ hiB, hdg,
        Option.map_some']
    · unfold batchAt
      rw [flatten_length_of_width 1 _
        (fun r hr => hR1 r (List.mem_of_mem_drop (List.mem_of_mem_take hr))),
        Nat.mul_one, List.length_take, List.length_drop]
      omega
    · unfold batchAt
      rw [List.length_take, List.length_drop]
      omega
  · obtain ⟨P2, R2, g2, heq, _, _, _, _, _⟩ :=
      shuffle_some_perm g (feederSt P R F se i flag) none P R rfl rfl rfl hRP
    exact ⟨_, _, heq⟩

/-- Witness for the amended C9 on a concrete two-row feeder. -/
theorem c9_witness :
    (∃ batch d' g', TFData.get_batch ⟨0⟩ (feederSt [[1], [2]] [[5], [6]] 1 false 0 false) 1
        = some (batch, d', g')
      ∧ batch.response.length = 1 ∧ batch.predictors.length = 1)
    ∧ ∃ d2 g2, TFData.shuffle ⟨0⟩ (feederSt [[1], [2]] [[5], [6]] 1 false 0 false) none
        = some (d2, g2) :=
  c9_amended_2d_response_welldefined [[1], [2]] [[5], [6]] 1 1 0 false false ⟨0⟩
    ⟨by decide, by decide, by decide⟩ (by decide)

/-! ### The scoring loop -/

theorem scoreLoop_succ (L : Batch ℝ → ℝ) (B fuel : Nat) (g : Rng) (d : TFData ℝ)
    (acc : List ℝ) :
    scoreLoop L B (fuel + 1) g d acc
      = if d.reached_end then some (acc, { d with reached_end := false }, g)
        else (TFData.get_batch g { d with reached_end := false } B).bind (fun r =>
          scoreLoop L B fuel r.2.2 r.2.1 (acc ++ [L r.1])) := rfl

/-- The `while` loop of `score` pulls exactly the epoch's batches: starting
with the flag clear at cursor `i` with `k+1` batches left before the wrap,
and with enough fuel, it collects one loss per served batch and stops when
the wrapped feeder's flag is read. -/
theorem scoreLoop_epoch (L : Batch ℝ → ℝ) (P R : List (List ℝ)) (F B : Nat)
    (se : Bool) (hgood : GoodData P R F) :
    ∀ (k i fuel : Nat) (g : Rng) (acc : List ℝ),
      i + k * B + B ≤ P.length → P.length < i + k * B + B + B → k + 2 ≤ fuel →
      ∃ d' g', scoreLoop L B fuel g (feederSt P R F se i false) acc
          = some (acc ++ (List.range (k + 1)).map
              (fun j => L (batchAt P R (i + j * B) B)), d', g')
        ∧ d'.reached_end = false := by
  intro k
  induction k with
  | zero =>
      intro i fuel g acc h1 h2 hfuel
      obtain ⟨f1, rfl⟩ : ∃ f1, fuel = f1 + 1 := ⟨fuel - 1, by omega⟩
      obtain ⟨f2, rfl⟩ : ∃ f2, f1 = f2 + 1 := ⟨f1 - 1, by omega⟩
      obtain ⟨P2, R2, g2, heq, _, _, _, _⟩ :=
        get_batch_wrap P R F B i se false g hgood (by omega) (by omega)
      refine ⟨{ feederSt P2 R2 F se 0 true with reached_end := false }, g2, ?_, rfl⟩
      rw [scoreLoop_succ,
        if_neg (by simp [feederSt] :
          ¬ ((feederSt P R F se i false).reached_end = true))]
      have hclear : ({ feederSt P R F se i false with reached_end := false })
          = feederSt P R F se i false := rfl
      rw [hclear, heq, Option.some_bind]
      dsimp only
      rw [scoreLoop_succ]
      simp [feederSt, List.range_succ]
  | succ k ih =>
      intro i fuel g acc h1 h2 hfuel
      obtain ⟨f1, rfl⟩ : ∃ f1, fuel = f1 + 1 := ⟨fuel - 1, by omega⟩
      rw [scoreLoop_succ,
        if_neg (by simp [feederSt] :
          ¬ ((feederSt P R F se i false).reached_end = true))]
      have hclear : ({ feederSt P R F se i false with reached_end := false })
          = feederSt P R F se i false := rfl
      rw [hclear]
      have hkB : (k + 1) * B = k * B + B := Nat.succ_mul k B
      have hstep : i + B + B ≤ P.length := by
        have : B ≤ (k + 1) * B := Nat.le_mul_of_pos_left B (by omega)
        omega
      rw [get_batch_no_wrap P R F B i se false g hgood hstep, Option.some_bind]
      dsimp only
      obtain ⟨d', g', hloop, hflag⟩ :=
        ih (i + B) f1 g (acc ++ [L (batchAt P R i B)])
          (by rw [hkB] at h1; omega) (by rw [hkB] at h2; omega) (by omega)
      refine ⟨d', g', ?_, hflag⟩
      rw [hloop, List.append_assoc]
      have hl : [L (batchAt P R i B)] ++ (List.range (k + 1)).map
            (fun j => L (batchAt P R (i + B + j * B) B))
          = (List.range (k + 2)).map (fun j => L (batchAt P R (i + j * B) B)) := by
        rw [List.singleton_append]
        exact cons_map_range_mul (fun n => L (batchAt P R n B)) i B (k + 1)
      rw [hl]

/-- Claim C4: `score(feeder)` pulls batches and collects the per-batch MSE
loss values until the feeder's `has_reached_end()` returns true (after
exactly `⌊N/B⌋` batches of a fresh epoch), then returns the square root of
the arithmetic mean of the collected losses; the number of scored batches is
fixed by the feeder's epoch signal — the result is the same for every
sufficient fuel bound. -/
theorem c4_score_rmse_of_epoch (D T : Nat)
    (sW : Nat → Nat → Nat → Nat → ℝ) (sB sS : Nat → Nat → Nat → ℝ)
    (tW : Nat → Nat → Nat → ℝ) (tB : Nat → Nat → ℝ)
    (P R : List (List ℝ)) (F B : Nat) (se : Bool) (g : Rng)
    (hgood : GoodData P R F) (hB : 1 ≤ B) (hBN : B ≤ P.length)
    (fuel : Nat) (hfuel : P.length / B + 1 ≤ fuel) :
    score (run_loss D T F B sW sB sS tW tB) B fuel g (feederSt P R F se 0 false)
      = some (Real.sqrt (npMean ((List.range (P.length / B)).map
          (fun j => run_loss D T F B sW sB sS tW tB (batchAt P R (j * B) B)))))
    ∧ ∃ d' g',
        scoreLoop (run_loss D T F B sW sB sS tW tB) B fuel g
            (feederSt P R F se 0 false) []
          = some ((List.range (P.length / B)).map
              (fun j => run_loss D T F B sW sB sS tW tB (batchAt P R (j * B) B)),
              d', g') := by
  have hq1 : 1 ≤ P.length / B := (Nat.one_le_div_iff (by omega)).mpr hBN
  have hqB : P.length / B * B ≤ P.length := Nat.div_mul_le_self P.length B
  have hqBB : P.length < P.length / B * B + B := by
    have hmod := Nat.div_add_mod P.length B
    have hlt : P.length % B < B := Nat.mod_lt P.length (by omega)
    have hc : P.length / B * B = B * (P.length / B) := Nat.mul_comm _ _
    omega
  obtain ⟨q', hq'⟩ : ∃ q', P.length / B = q' + 1 := ⟨P.length / B - 1, by omega⟩
  rw [hq'] at hqB hqBB
  have hc1 : 0 + q' * B + B ≤ P.length := by
    rw [Nat.succ_mul] at hqB
    omega
  have hc2 : P.length < 0 + q' * B + B + B := by
    rw [Nat.succ_mul] at hqBB
    omega
  obtain ⟨d', g', hloop, hflag⟩ :=
    scoreLoop_epoch (run_loss D T F B sW sB sS tW tB) P R F B se hgood
      q' 0 fuel g [] hc1 hc2 (by omega)
  have hlist : (List.range (q' + 1)).map
        (fun j => run_loss D T F B sW sB sS tW tB (batchAt P R (0 + j * B) B))
      = (List.range (P.length / B)).map
        (fun j => run_loss D T F B sW sB sS tW tB (batchAt P R (j * B) B)) := by
    rw [hq']
    apply List.map_congr_left
    intro j _
    norm_num
  rw [List.nil_append, hlist] at hloop
  refine ⟨?_, d', g', hloop⟩
  unfold score
  rw [hloop, Option.map_some']

/-- Witness for C4 on a one-row feeder with batch size one and the all-zero
depth-one model. -/
theorem c4_witness :
    score (run_loss 1 1 1 1 (fun _ _ _ _ => 0) (fun _ _ _ => 0) (fun _ _ _ => 0)
        (fun _ _ _ => 0) (fun _ _ => 0)) 1 2 ⟨0⟩
        (feederSt [[1]] [[2]] 1 false 0 false)
      = some (Real.sqrt (npMean ((List.range ([[(1 : ℝ)]].length / 1)).map
          (fun j => run_loss 1 1 1 1 (fun _ _ _ _ => 0) (fun _ _ _ => 0)
            (fun _ _ _ => 0) (fun _ _ _ => 0) (fun _ _ => 0)
            (batchAt [[1]] [[2]] (j * 1) 1)))))
    ∧ ∃ d' g',
        scoreLoop (run_loss 1 1 1 1 (fun _ _ _ _ => 0) (fun _ _ _ => 0)
            (fun _ _ _ => 0) (fun _ _ _ => 0) (fun _ _ => 0)) 1 2 ⟨0⟩
            (feederSt [[1]] [[2]] 1 false 0 false) []
          = some ((List.range ([[(1 : ℝ)]].length / 1)).map
              (fun j => run_loss 1 1 1 1 (fun _ _ _ _ => 0) (fun _ _ _ => 0)
                (fun _ _ _ => 0) (fun _ _ _ => 0) (fun _ _ => 0)
                (batchAt [[1]] [[2]] (j * 1) 1)), d', g') :=
  c4_score_rmse_of_epoch 1 1 (fun _ _ _ _ => 0) (fun _ _ _ => 0) (fun _ _ _ => 0)
    (fun _ _ _ => 0) (fun _ _ => 0) [[1]] [[2]] 1 1 false ⟨0⟩
    ⟨by simp, by simp, by simp⟩ (by norm_num) (by norm_num) 2 (by norm_num)

/-- Claim C10: if `score(feeder)` is entered while the reached-end flag is
already set, the loop body never executes — zero batches are pulled, the
collected loss list is empty, and the returned value is the square root of
the mean of an empty collection (`np.mean([])`, a NaN at runtime). -/
theorem c10_score_on_spent_feeder (L : Batch ℝ → ℝ) (B fuel : Nat) (g : Rng)
    (d : TFData ℝ) (hflag : d.reached_end = true) (hfuel : 1 ≤ fuel) :
    scoreLoop L B fuel g d [] = some ([], { d with reached_end := false }, g)
    ∧ score L B fuel g d = some (Real.sqrt (npMean [])) := by
  obtain ⟨f, rfl⟩ : ∃ f, fuel = f + 1 := ⟨fuel - 1, by omega⟩
  have h1 : scoreLoop L B (f + 1) g d [] = some ([], { d with reached_end := false }, g) := by
    rw [scoreLoop_succ, if_pos hflag]
  refine ⟨h1, ?_⟩
  unfold score
  rw [h1, Option.map_some']

/-- Witness for C10 on a concrete feeder whose flag is set. -/
theorem c10_witness :
    scoreLoop (fun _ => 0) 1 1 ⟨0⟩ (feederSt [[1]] [[2]] 1 false 0 true) []
        = some ([], { feederSt [[(1 : ℝ)]] [[2]] 1 false 0 true with reached_end := false }, ⟨0⟩)
    ∧ score (fun _ => 0) 1 1 ⟨0⟩ (feederSt [[1]] [[2]] 1 false 0 true)
        = some (Real.sqrt (npMean [])) :=
  c10_score_on_spent_feeder (fun _ => 0) 1 1 ⟨0⟩
    (feederSt [[1]] [[2]] 1 false 0 true) rfl (by norm_num)

end Braintree
